import Mathlib

/-!
Verification of the podcast-freshness-analyzer pipeline.

The Python sources are shallowly embedded as Lean definitions:

* strings are Lean `String`/`List Char` (Python `str`);
* JSON objects read with `dict.get` are structures with `Option` fields,
  or association lists when keys are looked up dynamically;
* numbers flowing through the score arithmetic are exact rationals
  (Python floats idealised as `ℚ`, with `round(x, 1)` embedded as
  round-half-to-even on exact values);
* `uuid.uuid4()` is modelled as drawing successive values from an
  identifier supply `ℕ → ℕ` (one draw per generated card), and
  `datetime.now().isoformat()` as a clock `ℕ → String` indexed by the
  same draw counter;
* whitespace is the ASCII whitespace set (the inputs of interest are
  ASCII transcripts).

Each claim theorem is stated over these definitions.
-/

namespace Podcast

/-- ASCII whitespace, the characters matched by Python `str.strip()` /
regex `\s` on the ASCII plane. -/
def isPySpace (c : Char) : Bool :=
  c = ' ' || c = '\t' || c = '\n' || c = '\r' || c = '\x0b' || c = '\x0c'

/-- Embedding of Python `str.strip()` on character lists. -/
def pyStrip (l : List Char) : List Char :=
  ((l.dropWhile isPySpace).reverse.dropWhile isPySpace).reverse

/-- Embedding of Python `str.strip()` on strings. -/
def pyStripStr (s : String) : String :=
  (pyStrip s.toList).asString

/-- Fuel-indexed core of Python `str.replace(pat, repl)` (all
occurrences, non-overlapping, left to right); the fuel is the input
length, enough since every step consumes at least one character.  A
fuel-indexed structural recursion is used so that the kernel can
evaluate it on concrete inputs. -/
def pyReplaceFuel : ℕ → List Char → List Char → List Char → List Char
  | 0, s, _, _ => s
  | fuel + 1, s, pat, repl =>
    match s with
    | [] => []
    | c :: cs =>
      if pat ≠ [] ∧ (c :: cs).take pat.length = pat then
        repl ++ pyReplaceFuel fuel ((c :: cs).drop pat.length) pat repl
      else
        c :: pyReplaceFuel fuel cs pat repl

/-- Embedding of Python `str.replace(pat, repl)`. -/
def pyReplace (s pat repl : String) : String :=
  (pyReplaceFuel s.toList.length s.toList pat.toList repl.toList).asString

/-- Fuel-indexed core of Python `str.split(sep)` for a non-empty
separator (non-overlapping, left to right). -/
def pySplitFuel : ℕ → List Char → List Char → List (List Char)
  | 0, s, _ => [s]
  | fuel + 1, s, sep =>
    match s with
    | [] => [[]]
    | c :: cs =>
      if sep ≠ [] ∧ (c :: cs).take sep.length = sep then
        [] :: pySplitFuel fuel ((c :: cs).drop sep.length) sep
      else
        match pySplitFuel fuel cs sep with
        | h :: t => (c :: h) :: t
        | [] => [[c]]

/-- Embedding of Python `str.split(sep)`. -/
def pySplit (s sep : String) : List String :=
  (pySplitFuel s.toList.length s.toList sep.toList).map List.asString

/-- Embedding of Python `sep.join(parts)`. -/
def pyJoin (sep : String) (parts : List String) : String :=
  (List.intercalate sep.toList (parts.map String.toList)).asString

/-- Embedding of Python `str.lower()` (ASCII plane). -/
def pyLower (s : String) : String :=
  (s.toList.map Char.toLower).asString

/-- Boolean test that a character list ends with the given pattern. -/
def listEndsWith (s pat : List Char) : Bool :=
  if pat.length ≤ s.length then decide (s.drop (s.length - pat.length) = pat) else false

/-- State-passing core of Python `str.title()`: the Boolean records
whether the previous character was alphabetic. -/
def pyTitleAux : Bool → List Char → List Char
  | _, [] => []
  | prev, c :: cs =>
    (if c.isAlpha then (if prev then c.toLower else c.toUpper) else c)
      :: pyTitleAux c.isAlpha cs

/-- Embedding of Python `str.title()` (ASCII plane). -/
def pyTitle (s : String) : String :=
  (pyTitleAux false s.toList).asString

/-- Flat JSON number object, such as the `scores` block
(`Dict[str, float]` in the source, floats idealised as `ℚ`). -/
abbrev ScoresMap := List (String × ℚ)

/-- Embedding of Python `dict.get(k, d)` on a scores object. -/
def scoresGet (m : ScoresMap) (k : String) (d : ℚ) : ℚ :=
  (m.lookup k).getD d

/-- Embedding of Python dict assignment `m[k] = v`: replace the binding
if the key is present, otherwise append it.  (Dicts decoded from JSON
are key-unique, which this models on association lists.) -/
def dictInsert {α : Type} : List (String × α) → String → α → List (String × α)
  | [], k, v => [(k, v)]
  | p :: t, k, v => if p.1 = k then (k, v) :: t else p :: dictInsert t k v

/-- Embedding of Python `round(x)` (round half to even) on exact
rationals. -/
def pyRoundInt (x : ℚ) : ℤ :=
  let n : ℤ := ⌊x⌋
  let f : ℚ := x - (n : ℚ)
  if f < 1 / 2 then n
  else if 1 / 2 < f then n + 1
  else if n % 2 = 0 then n else n + 1

/-- Embedding of Python `round(x, 1)` on exact rationals. -/
def pyRound1 (x : ℚ) : ℚ :=
  (pyRoundInt (10 * x) : ℚ) / 10

/-- Weight table of `calculate_overall_score`
(analyzer_hybrid.py, lines 463-470). -/
def overallWeights : List (String × ℚ) :=
  [("insight_density", 40 / 100),
   ("signal_to_noise", 20 / 100),
   ("actionability", 20 / 100),
   ("contrarian_index", 10 / 100),
   ("freshness", 5 / 100),
   ("host_quality", 5 / 100)]

/-- Embedding of `calculate_overall_score` (analyzer_hybrid.py,
lines 460-474): `round(sum(scores.get(dim, 5) * weights[dim] for dim in
weights.keys()), 1)`. -/
def calculate_overall_score (scores : ScoresMap) : ℚ :=
  pyRound1 ((overallWeights.map (fun dw => scoresGet scores dw.1 5 * dw.2)).sum)

/-- Embedding of the recomputation step of `analyze_podcast`
(analyzer_hybrid.py, lines 540-543):
`result['scores']['overall'] = calculate_overall_score(scores)`. -/
def store_overall (scores : ScoresMap) : ScoresMap :=
  dictInsert scores "overall" (calculate_overall_score scores)

/-- Completion of a scores object used to state claim C10: every one of
the six weighted dimensions is bound, missing ones to the neutral 5. -/
def completeScores (scores : ScoresMap) : ScoresMap :=
  overallWeights.map (fun dw => (dw.1, scoresGet scores dw.1 5))

/-- Example scores block from the spec scenario
(insight_density 8, signal_to_noise 6, actionability 7,
contrarian_index 5, freshness 4, host_quality 6). -/
def exampleScores : ScoresMap :=
  [("insight_density", 8), ("signal_to_noise", 6), ("actionability", 7),
   ("contrarian_index", 5), ("freshness", 4), ("host_quality", 6)]

/-- Lazy search for the closing delimiter, embedding the fragment
`(.*?)\n---\s*\n?(.*)$` of the header regex of `parse_transcript_header`
(analyzer_hybrid.py, line 411) under Python backtracking semantics: the
earliest occurrence of a newline followed by three dashes splits the
input; everything before it is group 1, and group 2 is the remainder
with the greedy `\s*` run removed (after which `\n?` matches empty and
`(.*)` takes the rest). -/
def tryLazy : List Char → Option (List Char × List Char)
  | [] => none
  | c :: cs =>
    if c = '\n' ∧ cs.take 3 = ['-', '-', '-'] then
      some ([], (cs.drop 3).dropWhile isPySpace)
    else
      match tryLazy cs with
      | some (g1, g2) => some (c :: g1, g2)
      | none => none

/-- Candidate remainders after the opening `^---\s*\n` of the header
regex, in greedy backtracking order: the `\s*` run may stop at any
newline inside the leading whitespace run, longest first. -/
def headerOpenRems (rest : List Char) : List (List Char) :=
  (((List.range (rest.takeWhile isPySpace).length).filter
      (fun j => rest[j]? = some '\n')).reverse).map (fun j => rest.drop (j + 1))

/-- Try each opening candidate in backtracking order. -/
def tryOpens : List (List Char) → Option (List Char × List Char)
  | [] => none
  | r :: rs =>
    match tryLazy r with
    | some p => some p
    | none => tryOpens rs

/-- Embedding of `re.match(r'^---\s*\n(.*?)\n---\s*\n?(.*)$', content,
re.DOTALL)` from `parse_transcript_header` (analyzer_hybrid.py,
line 411), returning (group 1, group 2) on success. -/
def matchHeader (s : List Char) : Option (List Char × List Char) :=
  if s.take 3 = ['-', '-', '-'] then tryOpens (headerOpenRems (s.drop 3)) else none

/-- Embedding of one iteration of the header-line loop of
`parse_transcript_header` (analyzer_hybrid.py, lines 418-422). -/
def parseHeaderLine (m : List (String × String)) (line : String) : List (String × String) :=
  let l := pyStrip line.toList
  if ':' ∈ l then
    let key := pyLower (pyStrip (l.takeWhile (fun c => c ≠ ':'))).asString
    let value := (pyStrip ((l.dropWhile (fun c => c ≠ ':')).drop 1)).asString
    dictInsert m key value
  else m

/-- Embedding of the header-text parsing loop of
`parse_transcript_header` (analyzer_hybrid.py, lines 417-422). -/
def parseHeaderText (h : String) : List (String × String) :=
  (pySplit h "\n").foldl parseHeaderLine []

/-- Embedding of `parse_transcript_header` (analyzer_hybrid.py, lines
384-424): strip the content, return `({}, content)` when the content
does not start with three dashes or the regex fails, otherwise parse
the header block and return it with the stripped body. -/
def parse_transcript_header (content : String) : List (String × String) × String :=
  let s := pyStrip content.toList
  match matchHeader s with
  | none => ([], s.asString)
  | some (g1, g2) => (parseHeaderText g1.asString, (pyStrip g2).asString)

/-- Embedding of Python `filename.rsplit('.', 1)[0]`: drop the part of
the name from the last dot on; a name without a dot is unchanged. -/
def dropLastExt (s : List Char) : List Char :=
  match s.reverse.dropWhile (fun c => c ≠ '.') with
  | [] => s
  | _ :: rest => rest.reverse

/-- Cleaned stem used by `infer_metadata_from_filename`
(analyzer_hybrid.py, lines 434-441): basename, extension removed, the
suffixes `_analysis_hybrid`, `_analysis`, `_transcript` deleted. -/
def inferName (filepath : String) : String :=
  let filename := (pySplit filepath "/").getLastD ""
  let name := (dropLastExt filename.toList).asString
  pyReplace (pyReplace (pyReplace name "_analysis_hybrid" "") "_analysis" "") "_transcript" ""

/-- Underscore-delimited tokens of the cleaned stem
(analyzer_hybrid.py, line 443). -/
def inferParts (filepath : String) : List String :=
  pySplit (inferName filepath) "_"

/-- Metadata record produced by the filename heuristic and by
`extract_metadata_from_analysis`. -/
structure Meta4 where
  podcast : String
  episode : String
  guest : String
  category : String
deriving DecidableEq

/-- Embedding of `' '.join(parts).title().replace('_', ' ')` as used on
each token slice in `infer_metadata_from_filename`. -/
def titleJoin (parts : List String) : String :=
  pyReplace (pyTitle (pyJoin " " parts)) "_" " "

/-- Embedding of `infer_metadata_from_filename` (analyzer_hybrid.py,
lines 427-457). -/
def infer_metadata_from_filename (filepath : String) : Meta4 :=
  let parts := inferParts filepath
  if 2 ≤ parts.length then
    let podcast := titleJoin (parts.take 2)
    let guest := if 2 < parts.length then titleJoin ((parts.drop 2).take 2)
      else "Unknown Guest"
    let episode := if 4 < parts.length then titleJoin (parts.drop 4) else guest
    { podcast := podcast, episode := episode, guest := guest,
      category := "learn_from_legends" }
  else
    { podcast := "Unknown Podcast", episode := "Unknown Episode",
      guest := "Unknown Guest", category := "learn_from_legends" }

/-- Recipe stated by the spec for the filename heuristic, written from
the spec's words for comparison with the source function: first two
tokens to the podcast, next two to the guest, remaining tokens to the
episode title, each title-cased, category defaulted. -/
def claimed_infer_metadata (filepath : String) : Meta4 :=
  let parts := inferParts filepath
  { podcast := titleJoin (parts.take 2),
    episode := titleJoin (parts.drop 4),
    guest := titleJoin ((parts.drop 2).take 2),
    category := "learn_from_legends" }

/-- Value substituted for the transcript placeholder when
analyzer_hybrid.py assembles its analysis prompt (line 527,
`transcript=transcript`): the body unchanged. -/
def hybridPromptTranscript (transcript : List Char) : List Char :=
  transcript

/-- Value substituted for the transcript placeholder when analyzer.py
assembles its analysis prompt (line 191, `transcript[:50000]`). -/
def legacyPromptTranscript (transcript : List Char) : List Char :=
  transcript.take 50000

/-- One insight / takeaway object of an analysis document, with the
optional keys read by the aggregator and the serving layer. -/
structure Takeaway where
  insight : Option String
  timestamp : Option String
  why_valuable : Option String
  obviousness_level : Option String
  category : Option String
  spicy_rating : Option ℤ
  rank : Option ℤ
  actionability : Option String
deriving DecidableEq

/-- The `episode_metadata` block of an analysis document. -/
structure EpisodeMeta where
  podcast : Option String
  episode : Option String
  guest : Option String
  primary_category : Option String
deriving DecidableEq

/-- The `verdict` block of an analysis document. -/
structure Verdict where
  tldr : Option String
  best_for : Option String
  skip_if : Option String
  worth_it : Option Bool
  best_quote : Option String
deriving DecidableEq

/-- An analysis JSON document as read by the aggregator
(generate_productreps_data.py): each field models one optionally
present top-level key. -/
structure AnalysisData where
  episode_metadata : Option EpisodeMeta
  scores : Option ScoresMap
  verdict : Option Verdict
  characteristics : Option (List String)
  summary : Option String
  insights : Option (List Takeaway)
  top_5_takeaways : Option (List Takeaway)
deriving DecidableEq

/-- An analysis file of the transcripts directory: its filename
(`filepath.name`, extension included) and its decoded JSON content. -/
structure AnalysisFile where
  name : String
  data : AnalysisData
deriving DecidableEq

/-- Category enum of generate_productreps_data.py, lines 40-45. -/
def VALID_CATEGORIES : List String :=
  ["learn_from_legends", "build_ai_products", "speak_ai_fluently", "ai_superpowers"]

/-- Embedding of `extract_metadata_from_analysis`
(generate_productreps_data.py, lines 48-87). -/
def extract_metadata_from_analysis (data : AnalysisData) (filename : String) : Meta4 :=
  match data.episode_metadata with
  | some meta =>
    { podcast := meta.podcast.getD "Unknown Podcast",
      episode := meta.episode.getD "Unknown Episode",
      guest := meta.guest.getD "Unknown Guest",
      category := meta.primary_category.getD "learn_from_legends" }
  | none =>
    let name := pyReplace filename "_analysis_hybrid.json" ""
    if (" _ " : String).toList <:+: name.toList then
      let parts := pySplit name " _ "
      if 2 ≤ parts.length then
        let title_part := pyStripStr (parts.headD "")
        let guest_part := pyStripStr (parts.getLastD "")
        let guest_clean := pyStripStr ((pySplit guest_part "(").headD "")
        { podcast := "Lenny\x27s Podcast", episode := title_part,
          guest := guest_clean, category := "learn_from_legends" }
      else
        { podcast := "Unknown Podcast", episode := name,
          guest := "Unknown Guest", category := "learn_from_legends" }
    else
      { podcast := "Unknown Podcast", episode := name,
        guest := "Unknown Guest", category := "learn_from_legends" }

/-- Embedding of `obviousness_to_spicy` (generate_productreps_data.py,
lines 134-141). -/
def obviousness_to_spicy (level : String) : ℤ :=
  if level = "truly_non_obvious" then 5
  else if level = "moderately_non_obvious" then 3
  else if level = "best_available" then 1
  else 2

/-- Denormalised `scores` sub-object of an insight card. -/
structure CardScores where
  freshness : ℚ
  insightDensity : ℚ
  contrarian : ℚ
  actionability : ℚ
deriving DecidableEq

/-- Denormalised `verdict` sub-object of an insight card. -/
structure CardVerdict where
  bestQuote : String
  bestFor : String
  skipIf : String
  tldr : String
deriving DecidableEq

/-- One catalog insight card, the dict literal built by
`process_analysis_file` (generate_productreps_data.py, lines 189-232).
The `id` field models `str(uuid.uuid4())` as a value drawn from the
identifier supply; `judgment` is always absent in the default no-AI
mode modelled here. -/
structure InsightCard where
  id : ℕ
  podcastTitle : String
  episodeTitle : String
  guest : String
  insight : String
  timestamp : String
  whyValuable : String
  obviousnessLevel : String
  spicyRating : ℤ
  rank : ℤ
  category : String
  podcastSourceId : String
  sourceFile : String
  characteristics : List String
  scores : CardScores
  verdict : CardVerdict
  actionabilityType : String
  judgment : Option Unit
  createdAt : String
  isPinned : Bool
  isSaved : Bool
deriving DecidableEq

/-- Default value of a missing `verdict` block (`data.get("verdict",
{})` followed by `.get` with defaults on every key). -/
def emptyVerdict : Verdict := ⟨none, none, none, none, none⟩

/-- Per-insight category resolution of `process_analysis_file`
(generate_productreps_data.py, lines 179-183), stated standalone for
the claim about category defaulting. -/
def resolveCategory (primary : String) (t : Takeaway) : String :=
  let c := t.category.getD primary
  if c ∈ VALID_CATEGORIES then c else primary

/-- Card built for the takeaway at position `i` (0-based) of its
document, with `k` the global draw counter
(generate_productreps_data.py, lines 179-232). -/
def mkInsightCard (uuidOf : ℕ → ℕ) (timeOf : ℕ → String) (meta : Meta4)
    (sc : ScoresMap) (vd : Verdict) (chars : List String) (srcName : String)
    (k i : ℕ) (t : Takeaway) : InsightCard :=
  { id := uuidOf k,
    podcastTitle := meta.podcast,
    episodeTitle := meta.episode,
    guest := meta.guest,
    insight := t.insight.getD "",
    timestamp := t.timestamp.getD "",
    whyValuable := t.why_valuable.getD "",
    obviousnessLevel := t.obviousness_level.getD "moderately_non_obvious",
    spicyRating := t.spicy_rating.getD
      (obviousness_to_spicy (t.obviousness_level.getD "moderately_non_obvious")),
    rank := t.rank.getD ((i : ℤ) + 1),
    category := resolveCategory meta.category t,
    podcastSourceId := meta.podcast,
    sourceFile := srcName,
    characteristics := chars,
    scores := { freshness := scoresGet sc "freshness" 5,
                insightDensity := scoresGet sc "insight_density" 5,
                contrarian := scoresGet sc "contrarian_index" 5,
                actionability := scoresGet sc "actionability" 5 },
    verdict := { bestQuote := vd.best_quote.getD "",
                 bestFor := vd.best_for.getD "",
                 skipIf := vd.skip_if.getD "",
                 tldr := vd.tldr.getD "" },
    actionabilityType := t.actionability.getD "strategic",
    judgment := none,
    createdAt := timeOf k,
    isPinned := false,
    isSaved := false }

/-- The `for i, takeaway in enumerate(takeaways)` loop of
`process_analysis_file`, threading the enumeration index `i` and the
identifier draw counter `k`. -/
def processTakeaways (uuidOf : ℕ → ℕ) (timeOf : ℕ → String) (meta : Meta4)
    (sc : ScoresMap) (vd : Verdict) (chars : List String) (srcName : String) :
    List Takeaway → ℕ → ℕ → List InsightCard × ℕ
  | [], _, k => ([], k)
  | t :: ts, i, k =>
    let c := mkInsightCard uuidOf timeOf meta sc vd chars srcName k i t
    let rest := processTakeaways uuidOf timeOf meta sc vd chars srcName ts (i + 1) (k + 1)
    (c :: rest.1, rest.2)

/-- The insight list read by the aggregator: `data.get("insights",
data.get("top_5_takeaways", []))`. -/
def takeawaysOf (data : AnalysisData) : List Takeaway :=
  data.insights.getD (data.top_5_takeaways.getD [])

/-- Embedding of `process_analysis_file`
(generate_productreps_data.py, lines 144-235), in the default no-AI
mode; returns the cards together with the advanced draw counter. -/
def process_analysis_file (uuidOf : ℕ → ℕ) (timeOf : ℕ → String)
    (f : AnalysisFile) (k : ℕ) : List InsightCard × ℕ :=
  let metadata := extract_metadata_from_analysis f.data f.name
  processTakeaways uuidOf timeOf metadata (f.data.scores.getD [])
    (f.data.verdict.getD emptyVerdict) (f.data.characteristics.getD [])
    f.name (takeawaysOf f.data) 0 k

/-- The per-file loop of `main` (generate_productreps_data.py,
lines 255-263), accumulating `all_insights`. -/
def processAll (uuidOf : ℕ → ℕ) (timeOf : ℕ → String) :
    List AnalysisFile → ℕ → List InsightCard × ℕ
  | [], k => ([], k)
  | f :: fs, k =>
    let r := process_analysis_file uuidOf timeOf f k
    let rest := processAll uuidOf timeOf fs r.2
    (r.1 ++ rest.1, rest.2)

/-- The catalog written by `main` (generate_productreps_data.py,
lines 265-289).  The `list(set(...))` index lists are modelled as the
underlying finite sets, since Python materialises them in incidental
set-iteration order. -/
structure Catalog where
  version : String
  generatedAt : String
  totalInsights : ℕ
  insights : List InsightCard
  sources : ℕ
  categories : Finset String
  characteristics : Finset String
  guests : Finset String
  podcasts : Finset String

/-- Embedding of `main` (generate_productreps_data.py, lines 245-296)
over the sorted list of analysis files, parameterised by the
identifier supply and the clock. -/
def runMain (uuidOf : ℕ → ℕ) (timeOf : ℕ → String)
    (files : List AnalysisFile) : Catalog :=
  let r := processAll uuidOf timeOf files 0
  { version := "2.0",
    generatedAt := timeOf r.2,
    totalInsights := r.1.length,
    insights := r.1,
    sources := files.length,
    categories := (r.1.map (fun c => c.category)).toFinset,
    characteristics := ((r.1.map (fun c => c.characteristics)).flatten).toFinset,
    guests := (r.1.map (fun c => c.guest)).toFinset,
    podcasts := (r.1.map (fun c => c.podcastTitle)).toFinset }

/-- Erasure of the per-run varying fields of a card: the freshly drawn
identifier and the creation timestamp. -/
def scrub (c : InsightCard) : InsightCard :=
  { c with id := 0, createdAt := "" }

/-- Takeaway of the alice_pricing scenario: no declared category, no
declared spicy rating. -/
def aliceTakeaway : Takeaway :=
  { insight := some "Charge more", timestamp := some "12:00",
    why_valuable := some "Pricing insight", obviousness_level := some "truly_non_obvious",
    category := none, spicy_rating := none, rank := some 1, actionability := none }

/-- Analysis file of the alice_pricing scenario: the analysis document
carries no `episode_metadata` block. -/
def aliceFile : AnalysisFile :=
  { name := "alice_pricing_analysis_hybrid.json",
    data := { episode_metadata := none, scores := none, verdict := none,
              characteristics := none, summary := none,
              insights := some [aliceTakeaway], top_5_takeaways := none } }

/-- An analysis JSON document as read by the serving layer (app.py):
each field models one optionally present top-level key, covering both
the hybrid shape (`scores` object) and the legacy flat shape
(`freshness_score` / `insight_score`). -/
structure AppData where
  scores : Option ScoresMap
  verdict : Option Verdict
  top_5_takeaways : Option (List Takeaway)
  summary : Option String
  characteristics : Option (List String)
  obvious_insights_rejected : Option (List String)
  why_these_scores : Option (List (String × String))
  freshness_score : Option ℚ
  insight_score : Option ℚ
deriving DecidableEq

/-- A `.json` analysis file of a serving-layer directory: its stem
(filename without the `.json` extension) and decoded content. -/
structure AppFile where
  stem : String
  data : AppData
deriving DecidableEq

/-- One entry of the episode list built by `load_episodes`
(app.py, lines 66-147). -/
structure Episode where
  id : String
  title : String
  format : String
  overall_score : ℚ
  insight_density : ℚ
  signal_to_noise : ℚ
  actionability : ℚ
  contrarian_index : ℚ
  freshness : ℚ
  host_quality : ℚ
  tldr : String
  best_for : String
  skip_if : String
  worth_it : Bool
  best_quote : String
  top_5_takeaways : List Takeaway
  top_insight : String
  top_insight_timestamp : String
  truly_non_obvious_count : ℕ
  summary : String
  characteristics : List String
  obvious_insights_rejected : List String
  why_these_scores : List (String × String)
deriving DecidableEq

/-- Embedding of `format_title` (app.py, lines 166-171). -/
def format_title (episode_id : String) : String :=
  let title := pyTitle (pyReplace episode_id "_" " ")
  if 100 < title.toList.length then (title.toList.take 97).asString ++ "..." else title

/-- Episode id extraction of `load_episodes` (app.py, line 60):
the stem with both analysis suffixes deleted. -/
def episodeId (stem : String) : String :=
  pyReplace (pyReplace stem "_analysis_critical" "") "_analysis_hybrid" ""

/-- The takeaway list `data.get("top_5_takeaways", [])`. -/
def topTakeaways (d : AppData) : List Takeaway :=
  d.top_5_takeaways.getD []

/-- Embedding of `data.get("top_5_takeaways", [{}])[0].get(key, "") if
data.get("top_5_takeaways") else ""`: an empty or missing list is
falsy and yields the empty string. -/
def topInsightField (d : AppData) (g : Takeaway → Option String) : String :=
  match d.top_5_takeaways with
  | some (t :: _) => (g t).getD ""
  | _ => ""

/-- Count of takeaways judged truly non-obvious (app.py,
lines 94-97). -/
def trulyCount (d : AppData) : ℕ :=
  (topTakeaways d).countP (fun t => t.obviousness_level == some "truly_non_obvious")

/-- Embedding of the episode construction of `load_episodes` (app.py,
lines 55-152) for one file.  `none` models the exception path: in the
hybrid branch the source indexes `data["scores"][key]` directly, so a
missing key raises a KeyError that the surrounding `try` turns into
skipping the file. -/
def buildEpisode (f : AppFile) : Option Episode :=
  let d := f.data
  let eid := episodeId f.stem
  match d.scores with
  | some sc =>
    match sc.lookup "overall", sc.lookup "insight_density", sc.lookup "signal_to_noise",
        sc.lookup "actionability", sc.lookup "contrarian_index", sc.lookup "freshness",
        sc.lookup "host_quality" with
    | some ov, some idn, some stn, some act, some ci, some fr, some hq =>
      some { id := eid, title := format_title eid, format := "hybrid",
             overall_score := ov, insight_density := idn, signal_to_noise := stn,
             actionability := act, contrarian_index := ci, freshness := fr,
             host_quality := hq,
             tldr := (d.verdict.getD emptyVerdict).tldr.getD "",
             best_for := (d.verdict.getD emptyVerdict).best_for.getD "",
             skip_if := (d.verdict.getD emptyVerdict).skip_if.getD "",
             worth_it := (d.verdict.getD emptyVerdict).worth_it.getD false,
             best_quote := (d.verdict.getD emptyVerdict).best_quote.getD "",
             top_5_takeaways := topTakeaways d,
             top_insight := topInsightField d (fun t => t.insight),
             top_insight_timestamp := topInsightField d (fun t => t.timestamp),
             truly_non_obvious_count := trulyCount d,
             summary := d.summary.getD "",
             characteristics := d.characteristics.getD [],
             obvious_insights_rejected := d.obvious_insights_rejected.getD [],
             why_these_scores := d.why_these_scores.getD [] }
    | _, _, _, _, _, _, _ => none
  | none =>
    some { id := eid, title := format_title eid, format := "old",
           overall_score := (d.freshness_score.getD 5 + d.insight_score.getD 5) / 2,
           insight_density := d.insight_score.getD 5,
           freshness := d.freshness_score.getD 5,
           signal_to_noise := 5, actionability := 5, contrarian_index := 5,
           host_quality := 5,
           tldr := d.summary.getD "",
           best_for := "Experienced PMs", skip_if := "",
           worth_it := decide (6 ≤ d.insight_score.getD 5),
           best_quote := "",
           top_5_takeaways := topTakeaways d,
           top_insight := topInsightField d (fun t => t.insight),
           top_insight_timestamp := topInsightField d (fun t => t.timestamp),
           truly_non_obvious_count := trulyCount d,
           summary := d.summary.getD "",
           characteristics := d.characteristics.getD [],
           obvious_insights_rejected := d.obvious_insights_rejected.getD [],
           why_these_scores := [] }

/-- Embedding of one `Path.glob` call of `load_episodes` (app.py,
lines 46-51): the files of the directory whose stem ends with the given
analysis suffix (every modelled file carries the `.json` extension). -/
def globSuffix (files : List AppFile) (suffix : String) : List AppFile :=
  files.filter (fun f => listEndsWith f.stem.toList suffix.toList)

/-- The combined scan order of `load_episodes` (app.py, lines 43-51):
cache critical, cache hybrid, transcripts critical, transcripts
hybrid. -/
def collectFiles (cache transcripts : List AppFile) : List AppFile :=
  globSuffix cache "_analysis_critical" ++ globSuffix cache "_analysis_hybrid"
    ++ globSuffix transcripts "_analysis_critical" ++ globSuffix transcripts "_analysis_hybrid"

/-- The episodes successfully built from one directory's files, in
scan order. -/
def builtFrom (files : List AppFile) : List Episode :=
  (globSuffix files "_analysis_critical" ++ globSuffix files "_analysis_hybrid").filterMap
    buildEpisode

/-- Embedding of the duplicate-removal loop of `load_episodes`
(app.py, lines 153-159): first occurrence of each id wins. -/
def dedupEpisodes : List Episode → List String → List Episode
  | [], _ => []
  | e :: rest, seen =>
    if e.id ∈ seen then dedupEpisodes rest seen
    else e :: dedupEpisodes rest (e.id :: seen)

/-- Embedding of `load_episodes` (app.py, lines 35-163): build an
episode per readable analysis file across both directories, drop
duplicate ids keeping the first occurrence, sort by overall score
descending. -/
def load_episodes (cache transcripts : List AppFile) : List Episode :=
  let episodes := (collectFiles cache transcripts).filterMap buildEpisode
  let unique := dedupEpisodes episodes []
  unique.mergeSort (fun a b => decide (b.overall_score ≤ a.overall_score))

/-- Hybrid-format analysis content for the duplicate-id scenario. -/
def demoHybridData : AppData :=
  { scores := some [("overall", 7), ("insight_density", 8), ("signal_to_noise", 6),
      ("actionability", 7), ("contrarian_index", 5), ("freshness", 4),
      ("host_quality", 6)],
    verdict := none, top_5_takeaways := none, summary := none, characteristics := none,
    obvious_insights_rejected := none, why_these_scores := none,
    freshness_score := none, insight_score := none }

/-- Legacy-format analysis content for the duplicate-id scenario. -/
def demoOldData : AppData :=
  { scores := none, verdict := none, top_5_takeaways := none,
    summary := some "Old summary", characteristics := none,
    obvious_insights_rejected := none, why_these_scores := none,
    freshness_score := some 6, insight_score := some 7 }

/-- Cache directory holding the hybrid copy of episode ep1. -/
def demoCache : List AppFile :=
  [{ stem := "ep1_analysis_hybrid", data := demoHybridData }]

/-- Transcripts directory holding the legacy copy of episode ep1. -/
def demoTranscripts : List AppFile :=
  [{ stem := "ep1_analysis_critical", data := demoOldData }]

theorem lookup_dictInsert_self {α : Type} (m : List (String × α)) (k : String) (v : α) :
    (dictInsert m k v).lookup k = some v := by
  induction m with
  | nil => simp [dictInsert, List.lookup]
  | cons p t ih =>
    by_cases h : p.1 = k
    · simp [dictInsert, h, List.lookup]
    · have hb : (k == p.1) = false := beq_eq_false_iff_ne.mpr (fun e => h e.symm)
      simp [dictInsert, h, List.lookup, hb, ih]

theorem lookup_dictInsert_ne {α : Type} (m : List (String × α)) (k k' : String) (v : α)
    (h : k' ≠ k) : (dictInsert m k v).lookup k' = m.lookup k' := by
  induction m with
  | nil =>
    have hb : (k' == k) = false := beq_eq_false_iff_ne.mpr h
    simp [dictInsert, List.lookup, hb]
  | cons p t ih =>
    by_cases hp : p.1 = k
    · subst hp
      have hb : (k' == p.1) = false := beq_eq_false_iff_ne.mpr h
      simp [dictInsert, List.lookup, hb]
    · simp [dictInsert, hp, List.lookup, ih]

theorem dictInsert_dictInsert {α : Type} (m : List (String × α)) (k : String) (v v' : α) :
    dictInsert (dictInsert m k v) k v' = dictInsert m k v' := by
  induction m with
  | nil => simp [dictInsert]
  | cons p t ih =>
    by_cases hp : p.1 = k
    · simp [dictInsert, hp]
    · simp [dictInsert, hp, ih]

theorem scoresGet_dictInsert_ne (m : ScoresMap) (k k' : String) (v d : ℚ)
    (h : k' ≠ k) : scoresGet (dictInsert m k v) k' d = scoresGet m k' d := by
  simp [scoresGet, lookup_dictInsert_ne m k k' v h]

theorem calculate_ignores_overall (scores : ScoresMap) (v : ℚ) :
    calculate_overall_score (dictInsert scores "overall" v)
      = calculate_overall_score scores := by
  simp [calculate_overall_score, overallWeights,
    scoresGet_dictInsert_ne _ _ _ _ _ (by decide : "insight_density" ≠ "overall"),
    scoresGet_dictInsert_ne _ _ _ _ _ (by decide : "signal_to_noise" ≠ "overall"),
    scoresGet_dictInsert_ne _ _ _ _ _ (by decide : "actionability" ≠ "overall"),
    scoresGet_dictInsert_ne _ _ _ _ _ (by decide : "contrarian_index" ≠ "overall"),
    scoresGet_dictInsert_ne _ _ _ _ _ (by decide : "freshness" ≠ "overall"),
    scoresGet_dictInsert_ne _ _ _ _ _ (by decide : "host_quality" ≠ "overall")]

/-- C1: for every scores block containing the six weighted dimensions,
the overall value stored by the analyzer equals the weighted sum
`0.40, 0.20, 0.20, 0.10, 0.05, 0.05` rounded to one decimal; the result
ignores any `overall` value already present in the input, storing is
idempotent, and the spec scenario (8, 6, 7, 5, 4, 6) recomputes to 6.8. -/
theorem C1_overall_score_recomputation :
    (∀ (scores : ScoresMap) (v₁ v₂ v₃ v₄ v₅ v₆ : ℚ),
      scores.lookup "insight_density" = some v₁ →
      scores.lookup "signal_to_noise" = some v₂ →
      scores.lookup "actionability" = some v₃ →
      scores.lookup "contrarian_index" = some v₄ →
      scores.lookup "freshness" = some v₅ →
      scores.lookup "host_quality" = some v₆ →
      (store_overall scores).lookup "overall"
        = some (pyRound1 (v₁ * (40 / 100) + v₂ * (20 / 100) + v₃ * (20 / 100)
            + v₄ * (10 / 100) + v₅ * (5 / 100) + v₆ * (5 / 100)))) ∧
    (∀ (scores : ScoresMap) (v : ℚ),
      calculate_overall_score (dictInsert scores "overall" v)
        = calculate_overall_score scores) ∧
    (∀ scores : ScoresMap, store_overall (store_overall scores) = store_overall scores) ∧
    (store_overall exampleScores).lookup "overall" = some (34 / 5) := by
  refine ⟨?_, calculate_ignores_overall, ?_, ?_⟩
  · intro scores v₁ v₂ v₃ v₄ v₅ v₆ h₁ h₂ h₃ h₄ h₅ h₆
    rw [store_overall, lookup_dictInsert_self]
    simp [calculate_overall_score, overallWeights, scoresGet, h₁, h₂, h₃, h₄, h₅, h₆]
    ring_nf
  · intro scores
    simp [store_overall, calculate_ignores_overall, dictInsert_dictInsert]
  · rw [store_overall, lookup_dictInsert_self]
    have e₁ : scoresGet exampleScores "insight_density" 5 = 8 := rfl
    have e₂ : scoresGet exampleScores "signal_to_noise" 5 = 6 := rfl
    have e₃ : scoresGet exampleScores "actionability" 5 = 7 := rfl
    have e₄ : scoresGet exampleScores "contrarian_index" 5 = 5 := rfl
    have e₅ : scoresGet exampleScores "freshness" 5 = 4 := rfl
    have e₆ : scoresGet exampleScores "host_quality" 5 = 6 := rfl
    have harg : (8 : ℚ) * (40 / 100) + (6 * (20 / 100)
        + (7 * (20 / 100) + (5 * (10 / 100) + (4 * (5 / 100)
        + (6 * (5 / 100) + 0))))) = 34 / 5 := by norm_num
    simp only [calculate_overall_score, overallWeights, List.map_cons, List.map_nil,
      List.sum_cons, List.sum_nil, e₁, e₂, e₃, e₄, e₅, e₆, harg]
    rw [pyRound1, pyRoundInt]
    norm_num

/-- Witness for C1 at the spec's example scores. -/
theorem C1_witness :
    exampleScores.lookup "insight_density" = some 8 ∧
    (store_overall exampleScores).lookup "overall"
      = some (pyRound1 ((8 : ℚ) * (40 / 100) + 6 * (20 / 100) + 7 * (20 / 100)
          + 5 * (10 / 100) + 4 * (5 / 100) + 6 * (5 / 100))) :=
  ⟨rfl,
   C1_overall_score_recomputation.1 exampleScores 8 6 7 5 4 6
     rfl rfl rfl rfl rfl rfl⟩

/-- C10: `calculate_overall_score` is total over arbitrary score
mappings: it equals its own value on the completion that binds every
missing dimension to the neutral 5, and on the empty mapping (all six
dimensions missing) it yields 5. -/
theorem C10_missing_dimensions_defaulted :
    (∀ scores : ScoresMap,
      calculate_overall_score scores = calculate_overall_score (completeScores scores)) ∧
    (∀ scores : ScoresMap,
      (overallWeights.map Prod.fst).all
        (fun d => ((completeScores scores).lookup d).isSome)) ∧
    calculate_overall_score [] = 5 := by
  have hempty : calculate_overall_score [] = 5 := by
    have e : ∀ k : String, scoresGet [] k 5 = 5 := fun k => rfl
    have harg : (5 : ℚ) * (40 / 100) + (5 * (20 / 100)
        + (5 * (20 / 100) + (5 * (10 / 100) + (5 * (5 / 100)
        + (5 * (5 / 100) + 0))))) = 5 := by norm_num
    simp only [calculate_overall_score, overallWeights, List.map_cons, List.map_nil,
      List.sum_cons, List.sum_nil, e, harg]
    rw [pyRound1, pyRoundInt]
    norm_num
  refine ⟨?_, ?_, hempty⟩
  · intro scores
    simp [calculate_overall_score, completeScores, overallWeights, scoresGet, List.lookup]
  · intro scores
    simp [completeScores, overallWeights, List.lookup]

theorem tryLazy_eq_none (s : List Char) (h : ¬ ['\n', '-', '-', '-'] <:+: s) :
    tryLazy s = none := by
  induction s with
  | nil => rfl
  | cons c cs ih =>
    rw [tryLazy]
    have hcond : ¬ (c = '\n' ∧ cs.take 3 = ['-', '-', '-']) := by
      rintro ⟨hc, ht⟩
      subst hc
      apply h
      apply List.IsPrefix.isInfix
      refine ⟨cs.drop 3, ?_⟩
      show '\n' :: (['-', '-', '-'] ++ cs.drop 3) = '\n' :: cs
      rw [← ht, List.take_append_drop]
    rw [if_neg hcond]
    have hcs : ¬ ['\n', '-', '-', '-'] <:+: cs := by
      rintro ⟨u, w, he⟩
      exact h ⟨c :: u, w, by rw [← he]; simp⟩
    rw [ih hcs]

theorem tryOpens_eq_none (rs : List (List Char)) (h : ∀ r ∈ rs, tryLazy r = none) :
    tryOpens rs = none := by
  induction rs with
  | nil => rfl
  | cons r t ih =>
    rw [tryOpens, h r (by simp), ih (fun x hx => h x (by simp [hx]))]

theorem headerOpenRems_suffix {rest r : List Char} (hr : r ∈ headerOpenRems rest) :
    r <:+ rest := by
  simp only [headerOpenRems, List.mem_map, List.mem_reverse, List.mem_filter,
    List.mem_range] at hr
  obtain ⟨j, _, rfl⟩ := hr
  exact List.drop_suffix _ _

theorem matchHeader_eq_none (s : List Char)
    (h : s.take 3 ≠ ['-', '-', '-'] ∨ ¬ ['\n', '-', '-', '-'] <:+: s) :
    matchHeader s = none := by
  by_cases hp : s.take 3 = ['-', '-', '-']
  · rcases h with h | h
    · exact absurd hp h
    · rw [matchHeader, if_pos hp]
      apply tryOpens_eq_none
      intro r hr
      apply tryLazy_eq_none
      intro hin
      apply h
      have h1 : r <:+ s.drop 3 := headerOpenRems_suffix hr
      have h2 : s.drop 3 <:+ s := List.drop_suffix 3 s
      exact hin.trans (h1.trans h2).isInfix
  · rw [matchHeader, if_neg hp]

/-- C6 (amended): the header parser is a total function; whenever the
whitespace-stripped content does not begin with three dashes, or
contains no closing delimiter (no newline followed by three dashes),
it returns the empty metadata mapping together with the
whitespace-stripped content as the transcript body. -/
theorem C6_header_parser_malformed :
    ∀ content : String,
      ((pyStrip content.toList).take 3 ≠ ['-', '-', '-'] ∨
        ¬ ['\n', '-', '-', '-'] <:+: pyStrip content.toList) →
      parse_transcript_header content = ([], (pyStrip content.toList).asString) := by
  intro content h
  have hm := matchHeader_eq_none (pyStrip content.toList) h
  simp only [String.toList] at hm
  simp [parse_transcript_header, String.toList, hm]

/-- Witness for C6 on a content that opens a header block but never
closes it. -/
theorem C6_witness :
    (¬ ['\n', '-', '-', '-'] <:+: pyStrip ("---\nabc" : String).toList) ∧
    parse_transcript_header "---\nabc" = ([], (pyStrip ("---\nabc" : String).toList).asString) :=
  ⟨by decide, C6_header_parser_malformed "---\nabc" (Or.inr (by decide))⟩

/-- C6 counterexample to the claim as stated: on input whose content
carries surrounding whitespace the parser returns the stripped content,
not the entire content, as the body. -/
theorem C6_counterexample :
    ("  hello  ".toList.take 3 ≠ ['-', '-', '-']) ∧
    parse_transcript_header "  hello  " ≠ ([], "  hello  ") ∧
    parse_transcript_header "  hello  " = ([], "hello") :=
  ⟨by decide, by decide, by decide⟩

/-- C7 counterexample to the claim as stated: no character budget
bounds the transcript portion that the hybrid analyzer embeds in its
prompt — for every claimed budget, a longer transcript is embedded
whole, not as a truncated prefix. -/
theorem C7_counterexample :
    ¬ ∃ budget : ℕ, ∀ transcript : List Char,
        budget < transcript.length →
        hybridPromptTranscript transcript ≠ transcript := by
  rintro ⟨budget, h⟩
  exact h (List.replicate (budget + 1) 'a') (by simp) rfl

/-- C7 (amended): only the legacy analyzer truncates the transcript
embedded in its prompt, to at most 50000 characters; the hybrid
analyzer embeds the entire transcript body. -/
theorem C7_transcript_truncation :
    ∀ transcript : List Char,
      legacyPromptTranscript transcript = transcript.take 50000 ∧
      (legacyPromptTranscript transcript).length ≤ 50000 ∧
      hybridPromptTranscript transcript = transcript := by
  intro t
  refine ⟨rfl, ?_, rfl⟩
  rw [legacyPromptTranscript]
  simp [List.length_take]

/-- C9 counterexample to the claim as stated: on the stem `a_b_c_d`
the code assigns the guest value `C D` to the episode title, while the
claim's recipe assigns the (empty) remainder of the tokens. -/
theorem C9_counterexample :
    infer_metadata_from_filename "a_b_c_d.txt" ≠ claimed_infer_metadata "a_b_c_d.txt" ∧
    (infer_metadata_from_filename "a_b_c_d.txt").episode = "C D" ∧
    (claimed_infer_metadata "a_b_c_d.txt").episode = "" :=
  ⟨by decide, by decide, by decide⟩

/-- C9 (amended): for a stem with at least two underscore-delimited
tokens, the heuristic assigns the first two tokens (title-cased,
space-joined) to the podcast; the next two tokens to the guest when a
third token exists, else the fixed `Unknown Guest`; the tokens from the
fifth on to the episode title when a fifth token exists, else the guest
value; and the category is always the default `learn_from_legends`. -/
theorem C9_filename_heuristic :
    ∀ filepath : String,
      2 ≤ (inferParts filepath).length →
      infer_metadata_from_filename filepath =
        { podcast := titleJoin ((inferParts filepath).take 2),
          episode := if 4 < (inferParts filepath).length
            then titleJoin ((inferParts filepath).drop 4)
            else if 2 < (inferParts filepath).length
              then titleJoin (((inferParts filepath).drop 2).take 2)
              else "Unknown Guest",
          guest := if 2 < (inferParts filepath).length
            then titleJoin (((inferParts filepath).drop 2).take 2)
            else "Unknown Guest",
          category := "learn_from_legends" } := by
  intro fp h
  by_cases h2 : 2 < (inferParts fp).length
  · by_cases h4 : 4 < (inferParts fp).length
    · simp [infer_metadata_from_filename, h, h2, h4]
    · simp [infer_metadata_from_filename, h, h2, h4]
  · have h4 : ¬ 4 < (inferParts fp).length := by omega
    simp [infer_metadata_from_filename, h, h2, h4]

/-- Witness for C9 at the example filename from the source comment. -/
theorem C9_witness :
    2 ≤ (inferParts "lennys_podcast_shreyas_doshi_building_products.txt").length ∧
    infer_metadata_from_filename "lennys_podcast_shreyas_doshi_building_products.txt" =
      { podcast := titleJoin ((inferParts "lennys_podcast_shreyas_doshi_building_products.txt").take 2),
        episode := if 4 < (inferParts "lennys_podcast_shreyas_doshi_building_products.txt").length
          then titleJoin ((inferParts "lennys_podcast_shreyas_doshi_building_products.txt").drop 4)
          else if 2 < (inferParts "lennys_podcast_shreyas_doshi_building_products.txt").length
            then titleJoin (((inferParts "lennys_podcast_shreyas_doshi_building_products.txt").drop 2).take 2)
            else "Unknown Guest",
        guest := if 2 < (inferParts "lennys_podcast_shreyas_doshi_building_products.txt").length
          then titleJoin (((inferParts "lennys_podcast_shreyas_doshi_building_products.txt").drop 2).take 2)
          else "Unknown Guest",
        category := "learn_from_legends" } :=
  ⟨by decide, C9_filename_heuristic "lennys_podcast_shreyas_doshi_building_products.txt" (by decide)⟩

theorem processTakeaways_ids (uuidOf : ℕ → ℕ) (timeOf : ℕ → String) (meta : Meta4)
    (sc : ScoresMap) (vd : Verdict) (chars : List String) (src : String) :
    ∀ (ts : List Takeaway) (i k : ℕ),
      (processTakeaways uuidOf timeOf meta sc vd chars src ts i k).1.map (fun c => c.id)
          = (List.range' k ts.length).map uuidOf ∧
        (processTakeaways uuidOf timeOf meta sc vd chars src ts i k).2 = k + ts.length := by
  intro ts
  induction ts with
  | nil => intro i k; simp [processTakeaways]
  | cons t ts ih =>
    intro i k
    obtain ⟨h1, h2⟩ := ih (i + 1) (k + 1)
    constructor
    · simp only [processTakeaways, List.map_cons, h1, List.length_cons, List.range'_succ,
        mkInsightCard]
    · simp only [processTakeaways, h2, List.length_cons]
      omega

theorem processAll_ids (uuidOf : ℕ → ℕ) (timeOf : ℕ → String) :
    ∀ (fs : List AnalysisFile) (k : ℕ),
      (processAll uuidOf timeOf fs k).1.map (fun c => c.id)
          = (List.range' k (processAll uuidOf timeOf fs k).1.length).map uuidOf ∧
        (processAll uuidOf timeOf fs k).2 = k + (processAll uuidOf timeOf fs k).1.length := by
  intro fs
  induction fs with
  | nil => intro k; simp [processAll]
  | cons f fs ih =>
    intro k
    obtain ⟨hf1, hf2⟩ := processTakeaways_ids uuidOf timeOf
      (extract_metadata_from_analysis f.data f.name) (f.data.scores.getD [])
      (f.data.verdict.getD emptyVerdict) (f.data.characteristics.getD [])
      f.name (takeawaysOf f.data) 0 k
    obtain ⟨h1, h2⟩ := ih (process_analysis_file uuidOf timeOf f k).2
    have hlen : (process_analysis_file uuidOf timeOf f k).1.length
        = (takeawaysOf f.data).length := by
      have := congrArg List.length hf1
      simpa [process_analysis_file] using this
    constructor
    · simp only [processAll, List.map_append, h1]
      rw [show (process_analysis_file uuidOf timeOf f k).1.map (fun c => c.id)
            = (List.range' k (takeawaysOf f.data).length).map uuidOf from hf1,
        ← List.map_append, List.length_append, hlen]
      have hstart : (processAll uuidOf timeOf fs
          (process_analysis_file uuidOf timeOf f k).2).1.length
            = (processAll uuidOf timeOf fs (process_analysis_file uuidOf timeOf f k).2).1.length :=
        rfl
      rw [show (process_analysis_file uuidOf timeOf f k).2
            = k + (takeawaysOf f.data).length by
          simpa [process_analysis_file] using hf2]
      rw [show k + (takeawaysOf f.data).length = k + 1 * (takeawaysOf f.data).length by ring]
      rw [List.range'_append]
      congr 2
      omega
    · have hf2' : (process_analysis_file uuidOf timeOf f k).2
          = k + (takeawaysOf f.data).length := by
        simpa [process_analysis_file] using hf2
      simp only [processAll, List.length_append, hlen]
      rw [h2]
      omega

theorem processTakeaways_sourceFile (uuidOf : ℕ → ℕ) (timeOf : ℕ → String) (meta : Meta4)
    (sc : ScoresMap) (vd : Verdict) (chars : List String) (src : String) :
    ∀ (ts : List Takeaway) (i k : ℕ) (c : InsightCard),
      c ∈ (processTakeaways uuidOf timeOf meta sc vd chars src ts i k).1 →
      c.sourceFile = src := by
  intro ts
  induction ts with
  | nil => intro i k c hc; simp [processTakeaways] at hc
  | cons t ts ih =>
    intro i k c hc
    simp only [processTakeaways, List.mem_cons] at hc
    rcases hc with hc | hc
    · subst hc; rfl
    · exact ih (i + 1) (k + 1) c hc

theorem processAll_traceable (uuidOf : ℕ → ℕ) (timeOf : ℕ → String) :
    ∀ (fs : List AnalysisFile) (k : ℕ) (c : InsightCard),
      c ∈ (processAll uuidOf timeOf fs k).1 →
      ∃ f ∈ fs, c.sourceFile = f.name := by
  intro fs
  induction fs with
  | nil => intro k c hc; simp [processAll] at hc
  | cons f fs ih =>
    intro k c hc
    simp only [processAll, List.mem_append] at hc
    rcases hc with hc | hc
    · refine ⟨f, by simp, ?_⟩
      exact processTakeaways_sourceFile uuidOf timeOf
        (extract_metadata_from_analysis f.data f.name) (f.data.scores.getD [])
        (f.data.verdict.getD emptyVerdict) (f.data.characteristics.getD [])
        f.name (takeawaysOf f.data) 0 k c (by simpa [process_analysis_file] using hc)
    · obtain ⟨g, hg, hge⟩ := ih (process_analysis_file uuidOf timeOf f k).2 c hc
      exact ⟨g, by simp [hg], hge⟩

/-- C2: when the identifier supply never repeats (the uuid4 contract),
any two distinct cards of one aggregation run carry different
identifiers, and every card records the filename of the analysis
document it came from. -/
theorem C2_unique_ids_traceable :
    ∀ (uuidOf : ℕ → ℕ) (timeOf : ℕ → String) (files : List AnalysisFile),
      Function.Injective uuidOf →
      (runMain uuidOf timeOf files).insights.Pairwise (fun a b => a.id ≠ b.id) ∧
      ∀ c ∈ (runMain uuidOf timeOf files).insights, ∃ f ∈ files, c.sourceFile = f.name := by
  intro uuidOf timeOf files hinj
  constructor
  · have hids := (processAll_ids uuidOf timeOf files 0).1
    have hnodup : ((processAll uuidOf timeOf files 0).1.map (fun c => c.id)).Nodup := by
      rw [hids]
      exact (List.nodup_range' 0 _).map hinj
    have := List.pairwise_map.mp hnodup
    simpa [runMain] using this
  · intro c hc
    exact processAll_traceable uuidOf timeOf files 0 c (by simpa [runMain] using hc)

/-- Witness for C2 with the identity supply on the alice file. -/
theorem C2_witness :
    (runMain (fun n => n) (fun _ => "now") [aliceFile]).insights.Pairwise
        (fun a b => a.id ≠ b.id) ∧
      ∀ c ∈ (runMain (fun n => n) (fun _ => "now") [aliceFile]).insights,
        ∃ f ∈ [aliceFile], c.sourceFile = f.name :=
  C2_unique_ids_traceable (fun n => n) (fun _ => "now") [aliceFile] (fun _ _ h => h)

theorem processTakeaways_categories (uuidOf : ℕ → ℕ) (timeOf : ℕ → String) (meta : Meta4)
    (sc : ScoresMap) (vd : Verdict) (chars : List String) (src : String) :
    ∀ (ts : List Takeaway) (i k : ℕ),
      (processTakeaways uuidOf timeOf meta sc vd chars src ts i k).1.map (fun c => c.category)
        = ts.map (resolveCategory meta.category) := by
  intro ts
  induction ts with
  | nil => intro i k; simp [processTakeaways]
  | cons t ts ih =>
    intro i k
    simp only [processTakeaways, List.map_cons, ih (i + 1) (k + 1), mkInsightCard]

/-- C3 (amended): every catalog entry's category is the insight's own
declared category when that category is one of the four enum values and
otherwise the document's primary category — where the primary category
comes from the analysis file alone (its `episode_metadata`, else the
analysis-filename fallback); the transcript header is never consulted,
so the alice_pricing scenario (no `episode_metadata`, insight without
category) yields `learn_from_legends`. -/
theorem C3_category_resolution :
    (∀ (uuidOf : ℕ → ℕ) (timeOf : ℕ → String) (f : AnalysisFile) (k : ℕ),
      (process_analysis_file uuidOf timeOf f k).1.map (fun c => c.category)
        = (takeawaysOf f.data).map
            (resolveCategory (extract_metadata_from_analysis f.data f.name).category)) ∧
    (process_analysis_file (fun n => n) (fun _ => "now") aliceFile 0).1.map
        (fun c => c.category) = ["learn_from_legends"] := by
  constructor
  · intro uuidOf timeOf f k
    simpa [process_analysis_file] using
      processTakeaways_categories uuidOf timeOf
        (extract_metadata_from_analysis f.data f.name) (f.data.scores.getD [])
        (f.data.verdict.getD emptyVerdict) (f.data.characteristics.getD [])
        f.name (takeawaysOf f.data) 0 k
  · decide

/-- C3 counterexample to the claim's scenario as stated: the alice
analysis file (transcript header `category: build_ai_products`, but no
`episode_metadata` in the analysis JSON) produces a card in category
`learn_from_legends`, not `build_ai_products`: the aggregator never
reads the transcript header. -/
theorem C3_counterexample :
    (process_analysis_file (fun n => n) (fun _ => "now") aliceFile 0).1.map
        (fun c => c.category) = ["learn_from_legends"] ∧
    (process_analysis_file (fun n => n) (fun _ => "now") aliceFile 0).1.map
        (fun c => c.category) ≠ ["build_ai_products"] :=
  ⟨by decide, by decide⟩

/-- C4: an insight without `spicy_rating` gets the value derived from
its obviousness tier via the fixed mapping (truly 5, moderately 3,
best_available 1, anything else 2, absent tier treated as moderately);
a present `spicy_rating` is used unchanged. -/
theorem C4_spicy_derivation :
    (∀ (uuidOf : ℕ → ℕ) (timeOf : ℕ → String) (meta : Meta4) (sc : ScoresMap)
        (vd : Verdict) (chars : List String) (src : String) (k i : ℕ) (t : Takeaway),
      t.spicy_rating = none →
      (mkInsightCard uuidOf timeOf meta sc vd chars src k i t).spicyRating
        = obviousness_to_spicy (t.obviousness_level.getD "moderately_non_obvious")) ∧
    (∀ (uuidOf : ℕ → ℕ) (timeOf : ℕ → String) (meta : Meta4) (sc : ScoresMap)
        (vd : Verdict) (chars : List String) (src : String) (k i : ℕ)
        (t : Takeaway) (v : ℤ),
      t.spicy_rating = some v →
      (mkInsightCard uuidOf timeOf meta sc vd chars src k i t).spicyRating = v) ∧
    obviousness_to_spicy "truly_non_obvious" = 5 ∧
    obviousness_to_spicy "moderately_non_obvious" = 3 ∧
    obviousness_to_spicy "best_available" = 1 ∧
    (∀ l : String, l ≠ "truly_non_obvious" → l ≠ "moderately_non_obvious" →
      l ≠ "best_available" → obviousness_to_spicy l = 2) := by
  refine ⟨?_, ?_, by decide, by decide, by decide, ?_⟩
  · intro uuidOf timeOf meta sc vd chars src k i t h
    simp [mkInsightCard, h]
  · intro uuidOf timeOf meta sc vd chars src k i t v h
    simp [mkInsightCard, h]
  · intro l h1 h2 h3
    simp [obviousness_to_spicy, h1, h2, h3]

/-- Witness for C4: the alice takeaway has no spicy rating and tier
truly_non_obvious, and its card's spiciness is 5. -/
theorem C4_witness :
    aliceTakeaway.spicy_rating = none ∧
    (mkInsightCard (fun n => n) (fun _ => "now")
        (extract_metadata_from_analysis aliceFile.data aliceFile.name) [] emptyVerdict []
        aliceFile.name 0 0 aliceTakeaway).spicyRating
      = obviousness_to_spicy (aliceTakeaway.obviousness_level.getD "moderately_non_obvious") :=
  ⟨rfl,
   C4_spicy_derivation.1 (fun n => n) (fun _ => "now")
     (extract_metadata_from_analysis aliceFile.data aliceFile.name) [] emptyVerdict []
     aliceFile.name 0 0 aliceTakeaway rfl⟩

theorem processTakeaways_scrub (meta : Meta4) (sc : ScoresMap) (vd : Verdict)
    (chars : List String) (src : String)
    (u₁ u₂ : ℕ → ℕ) (t₁ t₂ : ℕ → String) :
    ∀ (ts : List Takeaway) (i k₁ k₂ : ℕ),
      (processTakeaways u₁ t₁ meta sc vd chars src ts i k₁).1.map scrub
        = (processTakeaways u₂ t₂ meta sc vd chars src ts i k₂).1.map scrub := by
  intro ts
  induction ts with
  | nil => intro i k₁ k₂; rfl
  | cons t ts ih =>
    intro i k₁ k₂
    simp only [processTakeaways, List.map_cons, ih (i + 1) (k₁ + 1) (k₂ + 1)]
    congr 1

theorem processAll_scrub (u₁ u₂ : ℕ → ℕ) (t₁ t₂ : ℕ → String) :
    ∀ (fs : List AnalysisFile) (k₁ k₂ : ℕ),
      (processAll u₁ t₁ fs k₁).1.map scrub = (processAll u₂ t₂ fs k₂).1.map scrub := by
  intro fs
  induction fs with
  | nil => intro k₁ k₂; rfl
  | cons f fs ih =>
    intro k₁ k₂
    simp only [processAll, List.map_append]
    rw [show (process_analysis_file u₁ t₁ f k₁).1.map scrub
          = (process_analysis_file u₂ t₂ f k₂).1.map scrub by
        simpa [process_analysis_file] using
          processTakeaways_scrub (extract_metadata_from_analysis f.data f.name)
            (f.data.scores.getD []) (f.data.verdict.getD emptyVerdict)
            (f.data.characteristics.getD []) f.name u₁ u₂ t₁ t₂
            (takeawaysOf f.data) 0 k₁ k₂,
      ih (process_analysis_file u₁ t₁ f k₁).2 (process_analysis_file u₂ t₂ f k₂).2]

theorem map_scrub_field {β : Type} (g : InsightCard → β)
    (hg : ∀ c, g (scrub c) = g c) :
    ∀ {l₁ l₂ : List InsightCard}, l₁.map scrub = l₂.map scrub →
      l₁.map g = l₂.map g := by
  intro l₁ l₂ h
  have h1 : l₁.map g = (l₁.map scrub).map g := by
    rw [List.map_map]; exact (List.map_congr_left (fun c _ => (hg c).symm))
  have h2 : l₂.map g = (l₂.map scrub).map g := by
    rw [List.map_map]; exact (List.map_congr_left (fun c _ => (hg c).symm))
  rw [h1, h2, h]

/-- C8: for a fixed list of input analysis files, two aggregation runs
with different identifier supplies and clocks produce the same insight
content — card lists equal (same order) after erasing the freshly drawn
identifiers and creation timestamps — the same insight count, and the
same category, characteristic, guest and podcast index sets. -/
theorem C8_determinism :
    ∀ (u₁ u₂ : ℕ → ℕ) (t₁ t₂ : ℕ → String) (files : List AnalysisFile),
      (runMain u₁ t₁ files).insights.map scrub
          = (runMain u₂ t₂ files).insights.map scrub ∧
      (runMain u₁ t₁ files).totalInsights = (runMain u₂ t₂ files).totalInsights ∧
      (runMain u₁ t₁ files).categories = (runMain u₂ t₂ files).categories ∧
      (runMain u₁ t₁ files).characteristics = (runMain u₂ t₂ files).characteristics ∧
      (runMain u₁ t₁ files).guests = (runMain u₂ t₂ files).guests ∧
      (runMain u₁ t₁ files).podcasts = (runMain u₂ t₂ files).podcasts ∧
      (runMain u₁ t₁ files).sources = (runMain u₂ t₂ files).sources := by
  intro u₁ u₂ t₁ t₂ files
  have hscrub : (processAll u₁ t₁ files 0).1.map scrub
      = (processAll u₂ t₂ files 0).1.map scrub :=
    processAll_scrub u₁ u₂ t₁ t₂ files 0 0
  have hlen : (processAll u₁ t₁ files 0).1.length = (processAll u₂ t₂ files 0).1.length := by
    have := congrArg List.length hscrub
    simpa using this
  refine ⟨by simpa [runMain] using hscrub, by simpa [runMain] using hlen, ?_, ?_, ?_, ?_, rfl⟩
  · have := map_scrub_field (fun c => c.category) (fun c => rfl) hscrub
    simp only [runMain]
    rw [this]
  · have := map_scrub_field (fun c => c.characteristics) (fun c => rfl) hscrub
    simp only [runMain]
    rw [this]
  · have := map_scrub_field (fun c => c.guest) (fun c => rfl) hscrub
    simp only [runMain]
    rw [this]
  · have := map_scrub_field (fun c => c.podcastTitle) (fun c => rfl) hscrub
    simp only [runMain]
    rw [this]

theorem built_split (cache transcripts : List AppFile) :
    (collectFiles cache transcripts).filterMap buildEpisode
      = builtFrom cache ++ builtFrom transcripts := by
  simp [collectFiles, builtFrom, List.filterMap_append, List.append_assoc]

theorem dedup_subset : ∀ (l : List Episode) (seen : List String) (e : Episode),
    e ∈ dedupEpisodes l seen → e ∈ l := by
  intro l
  induction l with
  | nil => intro seen e he; simp [dedupEpisodes] at he
  | cons a rest ih =>
    intro seen e he
    rw [dedupEpisodes] at he
    by_cases ha : a.id ∈ seen
    · rw [if_pos ha] at he
      exact List.mem_cons_of_mem a (ih seen e he)
    · rw [if_neg ha] at he
      rcases List.mem_cons.mp he with he | he
      · exact he ▸ List.mem_cons_self a rest
      · exact List.mem_cons_of_mem a (ih (a.id :: seen) e he)

theorem dedup_id_not_seen : ∀ (l : List Episode) (seen : List String) (e : Episode),
    e ∈ dedupEpisodes l seen → e.id ∉ seen := by
  intro l
  induction l with
  | nil => intro seen e he; simp [dedupEpisodes] at he
  | cons a rest ih =>
    intro seen e he
    rw [dedupEpisodes] at he
    by_cases ha : a.id ∈ seen
    · rw [if_pos ha] at he
      exact ih seen e he
    · rw [if_neg ha] at he
      rcases List.mem_cons.mp he with he | he
      · exact he ▸ ha
      · intro hmem
        exact ih (a.id :: seen) e he (List.mem_cons_of_mem _ hmem)

theorem dedup_pairwise : ∀ (l : List Episode) (seen : List String),
    (dedupEpisodes l seen).Pairwise (fun a b => a.id ≠ b.id) := by
  intro l
  induction l with
  | nil => intro seen; simp [dedupEpisodes]
  | cons a rest ih =>
    intro seen
    rw [dedupEpisodes]
    by_cases ha : a.id ∈ seen
    · rw [if_pos ha]; exact ih seen
    · rw [if_neg ha]
      refine List.Pairwise.cons ?_ (ih (a.id :: seen))
      intro b hb heq
      exact dedup_id_not_seen rest (a.id :: seen) b hb (heq ▸ List.mem_cons_self a.id seen)

theorem dedup_exists : ∀ (l : List Episode) (seen : List String) (x : String),
    (∃ e ∈ l, e.id = x) → x ∉ seen → ∃ e ∈ dedupEpisodes l seen, e.id = x := by
  intro l
  induction l with
  | nil => intro seen x hex _; simp at hex
  | cons a rest ih =>
    intro seen x hex hx
    rw [dedupEpisodes]
    obtain ⟨e, he, heid⟩ := hex
    by_cases ha : a.id ∈ seen
    · rw [if_pos ha]
      rcases List.mem_cons.mp he with he | he
      · exact absurd (by rw [← heid, he]; exact ha) hx
      · exact ih seen x ⟨e, he, heid⟩ hx
    · rw [if_neg ha]
      rcases List.mem_cons.mp he with he | he
      · exact ⟨a, List.mem_cons_self a _, he ▸ heid⟩
      · by_cases hax : a.id = x
        · exact ⟨a, List.mem_cons_self a _, hax⟩
        · obtain ⟨e', he', heid'⟩ := ih (a.id :: seen) x ⟨e, he, heid⟩
            (by simp [hax, hx]; exact fun h => hax h.symm)
          exact ⟨e', List.mem_cons_of_mem a he', heid'⟩

theorem dedup_first_origin : ∀ (l₁ l₂ : List Episode) (seen : List String) (e : Episode),
    e ∈ dedupEpisodes (l₁ ++ l₂) seen → (∃ a ∈ l₁, a.id = e.id) → e ∈ l₁ := by
  intro l₁
  induction l₁ with
  | nil => intro l₂ seen e _ hex; simp at hex
  | cons a rest ih =>
    intro l₂ seen e he hex
    rw [List.cons_append, dedupEpisodes] at he
    by_cases ha : a.id ∈ seen
    · rw [if_pos ha] at he
      obtain ⟨b, hb, hbe⟩ := hex
      rcases List.mem_cons.mp hb with hb | hb
      · have : e.id ∈ seen := by
          rw [← hbe, hb]
          exact ha
        exact absurd this (dedup_id_not_seen _ _ _ he)
      · exact List.mem_cons_of_mem a (ih l₂ seen e he ⟨b, hb, hbe⟩)
    · rw [if_neg ha] at he
      rcases List.mem_cons.mp he with he | he
      · exact he ▸ List.mem_cons_self a rest
      · obtain ⟨b, hb, hbe⟩ := hex
        rcases List.mem_cons.mp hb with hb | hb
        · exfalso
          apply dedup_id_not_seen _ _ _ he
          rw [← hbe, hb]
          exact List.mem_cons_self a.id seen
        · exact List.mem_cons_of_mem a (ih l₂ (a.id :: seen) e he ⟨b, hb, hbe⟩)

theorem pairwise_countP_le_one : ∀ (l : List Episode) (x : String),
    l.Pairwise (fun a b => a.id ≠ b.id) →
    l.countP (fun e => e.id == x) ≤ 1 := by
  intro l
  induction l with
  | nil => intro x _; simp
  | cons a rest ih =>
    intro x hp
    obtain ⟨ha, hrest⟩ := List.pairwise_cons.mp hp
    by_cases hax : a.id = x
    · have hz : rest.countP (fun e => e.id == x) = 0 := by
        rw [List.countP_eq_zero]
        intro b hb
        simp only [beq_iff_eq]
        rw [← hax]
        exact fun h => ha b hb h.symm
      rw [List.countP_cons]
      simp [hax, hz]
    · rw [List.countP_cons]
      simp only [beq_iff_eq, hax]
      simpa using ih x hrest

/-- C5: the serving layer's episode list never holds two episodes with
the same id; and for an id built from both the cache and the
transcripts directory the list holds exactly one episode with that id,
and it is one built from the cache directory (cache copy wins). -/
theorem C5_episode_dedup :
    (∀ cache transcripts : List AppFile,
      (load_episodes cache transcripts).Pairwise (fun a b => a.id ≠ b.id)) ∧
    (∀ (cache transcripts : List AppFile) (x : String),
      (∃ e ∈ builtFrom cache, e.id = x) →
      (∃ e ∈ builtFrom transcripts, e.id = x) →
      (load_episodes cache transcripts).countP (fun e => e.id == x) = 1 ∧
        ∀ e ∈ load_episodes cache transcripts, e.id = x → e ∈ builtFrom cache) := by
  have hsymm : ∀ {a b : Episode}, a.id ≠ b.id → b.id ≠ a.id := fun h => fun e => h e.symm
  constructor
  · intro cache transcripts
    have hperm := List.mergeSort_perm
      (dedupEpisodes ((collectFiles cache transcripts).filterMap buildEpisode) [])
      (fun a b => decide (b.overall_score ≤ a.overall_score))
    exact (hperm.pairwise_iff hsymm).mpr (dedup_pairwise _ [])
  · intro cache transcripts x hc ht
    simp only [load_episodes]
    have hperm := List.mergeSort_perm
      (dedupEpisodes ((collectFiles cache transcripts).filterMap buildEpisode) [])
      (fun a b => decide (b.overall_score ≤ a.overall_score))
    have hmemx : ∃ e ∈ (collectFiles cache transcripts).filterMap buildEpisode, e.id = x := by
      obtain ⟨e, he, heid⟩ := hc
      exact ⟨e, by rw [built_split]; exact List.mem_append_left _ he, heid⟩
    have hded := dedup_exists _ [] x hmemx (by simp)
    constructor
    · apply Nat.le_antisymm
      · rw [List.Perm.countP_eq _ hperm]
        exact pairwise_countP_le_one _ x (dedup_pairwise _ [])
      · rw [List.Perm.countP_eq _ hperm]
        have hpos : 0 < List.countP (fun e => e.id == x)
            (dedupEpisodes ((collectFiles cache transcripts).filterMap buildEpisode) []) := by
          rw [List.countP_pos_iff]
          obtain ⟨e, he, heid⟩ := hded
          exact ⟨e, he, by simp [heid]⟩
        omega
    · intro e he heid
      have hmem : e ∈ dedupEpisodes ((collectFiles cache transcripts).filterMap buildEpisode) [] :=
        hperm.mem_iff.mp he
      rw [built_split] at hmem
      apply dedup_first_origin (builtFrom cache) (builtFrom transcripts) [] e hmem
      obtain ⟨a, ha, haid⟩ := hc
      exact ⟨a, ha, by rw [haid, heid]⟩

/-- Witness for C5 on an episode id present in both directories. -/
theorem C5_witness :
    ((∃ e ∈ builtFrom demoCache, e.id = "ep1") ∧
      ∃ e ∈ builtFrom demoTranscripts, e.id = "ep1") ∧
    ((load_episodes demoCache demoTranscripts).countP (fun e => e.id == "ep1") = 1 ∧
      ∀ e ∈ load_episodes demoCache demoTranscripts, e.id = "ep1" →
        e ∈ builtFrom demoCache) :=
  ⟨⟨by decide, by decide⟩,
   C5_episode_dedup.2 demoCache demoTranscripts "ep1" (by decide) (by decide)⟩

end Podcast
